import Mathlib

/-!
# Verification of the network-topology-viz geometric and animation engine

A shallow embedding, over the real numbers, of the geometry and state-update
code of the `network-topology-viz` repository:

* the golden-angle spherical layout (`distributePointsOnSphere`,
  `src/components/NetworkTopology.tsx`),
* the quaternion great-circle interpolation (`getGreatCirclePoint`,
  identical copies in `NetworkTopology.tsx`, `TrafficFlow.tsx` and
  `NetworkTooltip.tsx`; the `TrafficFlow.tsx` copy also takes a lateral
  particle offset),
* the per-frame traffic-particle update (`TrafficFlow.tsx`),
* the tooltip auto-cycle (`useTooltipAutoMovement`, `NetworkTooltip.tsx`),
* link rendering with position lookup (`NetworkTopology.tsx`),
* the camera selection animation (`CameraController`, with the
  `@tweenjs/tween.js` cubic in-out easing).

The vector and quaternion primitives (`Vector3.applyQuaternion`,
`Quaternion.setFromUnitVectors`, `Quaternion.slerpQuaternions`,
`normalize`, `length`) are translated from the three.js sources the code
calls into.  JavaScript IEEE-754 doubles are modelled as ideal real
numbers; for the one place where a non-finite double (NaN, from `0/0`)
decides a claim, the layout function is modelled over `Option ℝ`, `none`
standing for a non-finite double.
-/

namespace NetViz

/-- `Number.EPSILON` in JavaScript: `2⁻⁵²`, the threshold three.js uses in
`setFromUnitVectors` and `slerp`. -/
noncomputable def jsEPSILON : ℝ := 1 / 2 ^ 52

/-- `THREE.Vector3`: a 3-component real vector. -/
@[ext]
structure Vec3 where
  x : ℝ
  y : ℝ
  z : ℝ

/-- `Vector3.add`. -/
def Vec3.add (a b : Vec3) : Vec3 := ⟨a.x + b.x, a.y + b.y, a.z + b.z⟩

/-- `Vector3.sub`. -/
def Vec3.sub (a b : Vec3) : Vec3 := ⟨a.x - b.x, a.y - b.y, a.z - b.z⟩

/-- `Vector3.multiplyScalar`. -/
def Vec3.multiplyScalar (a : Vec3) (s : ℝ) : Vec3 := ⟨a.x * s, a.y * s, a.z * s⟩

/-- `Vector3.dot`. -/
def Vec3.dot (a b : Vec3) : ℝ := a.x * b.x + a.y * b.y + a.z * b.z

/-- `Vector3.cross` (`crossVectors(a, b)`). -/
def Vec3.cross (a b : Vec3) : Vec3 :=
  ⟨a.y * b.z - a.z * b.y, a.z * b.x - a.x * b.z, a.x * b.y - a.y * b.x⟩

/-- `Vector3.lengthSq`. -/
def Vec3.lengthSq (a : Vec3) : ℝ := a.x * a.x + a.y * a.y + a.z * a.z

/-- `Vector3.length`. -/
noncomputable def Vec3.length (a : Vec3) : ℝ := Real.sqrt a.lengthSq

/-- `Vector3.divideScalar` (three.js implements it as `multiplyScalar(1/s)`). -/
noncomputable def Vec3.divideScalar (a : Vec3) (s : ℝ) : Vec3 := a.multiplyScalar (1 / s)

/-- `Vector3.normalize`: `divideScalar(length() || 1)` — a zero vector is
left unchanged. -/
noncomputable def Vec3.normalize (a : Vec3) : Vec3 :=
  a.divideScalar (if a.length = 0 then 1 else a.length)

/-- `Vector3.distanceTo`. -/
noncomputable def Vec3.distanceTo (a b : Vec3) : ℝ := (a.sub b).length

/-- `THREE.Quaternion`. -/
@[ext]
structure Quat where
  x : ℝ
  y : ℝ
  z : ℝ
  w : ℝ

/-- Quaternion dot product (`Quaternion.dot`), as computed inline in
`Quaternion.slerp`. -/
def Quat.dot (a b : Quat) : ℝ := a.w * b.w + a.x * b.x + a.y * b.y + a.z * b.z

/-- `Quaternion.lengthSq`. -/
def Quat.lengthSq (q : Quat) : ℝ := q.x * q.x + q.y * q.y + q.z * q.z + q.w * q.w

/-- `Quaternion.length`. -/
noncomputable def Quat.length (q : Quat) : ℝ := Real.sqrt q.lengthSq

/-- Componentwise quaternion negation, as done inline in `Quaternion.slerp`
when the dot product is negative. -/
def Quat.neg (q : Quat) : Quat := ⟨-q.x, -q.y, -q.z, -q.w⟩

/-- `Quaternion.normalize`: zero length yields the identity quaternion,
otherwise every component is multiplied by `1/length`. -/
noncomputable def Quat.normalize (q : Quat) : Quat :=
  if q.length = 0 then ⟨0, 0, 0, 1⟩
  else ⟨q.x * (1 / q.length), q.y * (1 / q.length), q.z * (1 / q.length),
        q.w * (1 / q.length)⟩

/-- `Quaternion.setFromUnitVectors(vFrom, vTo)`: the shortest-arc rotation
taking `vFrom` to `vTo`.  If the vectors are (numerically) antipodal
(`dot + 1 < Number.EPSILON`) an arbitrary orthogonal axis is used with
`w = 0`; otherwise the quaternion is `(vFrom × vTo, 1 + dot)`.  Either way
the result is normalized. -/
noncomputable def setFromUnitVectors (vFrom vTo : Vec3) : Quat :=
  let r := vFrom.dot vTo + 1
  if r < jsEPSILON then
    (if |vFrom.x| > |vFrom.z| then Quat.normalize ⟨-vFrom.y, vFrom.x, 0, 0⟩
     else Quat.normalize ⟨0, -vFrom.z, vFrom.y, 0⟩)
  else
    Quat.normalize ⟨vFrom.y * vTo.z - vFrom.z * vTo.y,
                    vFrom.z * vTo.x - vFrom.x * vTo.z,
                    vFrom.x * vTo.y - vFrom.y * vTo.x, r⟩

/-- `Vector3.applyQuaternion(q)`: `v + q.w * t + q.xyz × t` where
`t = 2 (q.xyz × v)`, written out componentwise exactly as in three.js. -/
def Vec3.applyQuaternion (v : Vec3) (q : Quat) : Vec3 :=
  let tx := 2 * (q.y * v.z - q.z * v.y)
  let ty := 2 * (q.z * v.x - q.x * v.z)
  let tz := 2 * (q.x * v.y - q.y * v.x)
  ⟨v.x + q.w * tx + q.y * tz - q.z * ty,
   v.y + q.w * ty + q.z * tx - q.x * tz,
   v.z + q.w * tz + q.x * ty - q.y * tx⟩

/-- JavaScript `Math.atan2 y x`, the argument of the complex number
`x + y·i` (they agree on every non-zero input pair). -/
noncomputable def atan2 (y x : ℝ) : ℝ := Complex.arg ⟨x, y⟩

/-- `Quaternion.slerpQuaternions(qa, qb, t)` (i.e. `copy(qa).slerp(qb, t)`),
including all of the three.js shortcut branches: `t = 0`, `t = 1`,
negation of `qb` when the dot product is negative, coincident quaternions
(`cosHalfTheta ≥ 1`), the nlerp fallback for almost-coincident quaternions
(`sin² ≤ Number.EPSILON`), and finally the trigonometric slerp formula. -/
noncomputable def slerpQuaternions (qa qb : Quat) (t : ℝ) : Quat :=
  if t = 0 then qa
  else if t = 1 then qb
  else
    let c0 := Quat.dot qa qb
    let qb2 := if c0 < 0 then qb.neg else qb
    let cosHalfTheta := if c0 < 0 then -c0 else c0
    if 1 ≤ cosHalfTheta then qa
    else
      let sqrSinHalfTheta := 1 - cosHalfTheta * cosHalfTheta
      if sqrSinHalfTheta ≤ jsEPSILON then
        Quat.normalize ⟨(1 - t) * qa.x + t * qb2.x, (1 - t) * qa.y + t * qb2.y,
                        (1 - t) * qa.z + t * qb2.z, (1 - t) * qa.w + t * qb2.w⟩
      else
        let sinHalfTheta := Real.sqrt sqrSinHalfTheta
        let halfTheta := atan2 sinHalfTheta cosHalfTheta
        let ratioA := Real.sin ((1 - t) * halfTheta) / sinHalfTheta
        let ratioB := Real.sin (t * halfTheta) / sinHalfTheta
        ⟨qa.x * ratioA + qb2.x * ratioB, qa.y * ratioA + qb2.y * ratioB,
         qa.z * ratioA + qb2.z * ratioB, qa.w * ratioA + qb2.w * ratioB⟩

/-- `getGreatCirclePoint(start, end, t, radius)` from
`NetworkTopology.tsx` / `NetworkTooltip.tsx`: quaternions from the unit
`(0,1,0)` reference to the normalized endpoints, slerped by `t`, applied to
the reference and scaled by `radius`. -/
noncomputable def getGreatCirclePoint (start endv : Vec3) (t radius : ℝ) : Vec3 :=
  let startQuat := setFromUnitVectors ⟨0, 1, 0⟩ start.normalize
  let endQuat := setFromUnitVectors ⟨0, 1, 0⟩ endv.normalize
  let slerpQuat := slerpQuaternions startQuat endQuat t
  (Vec3.applyQuaternion ⟨0, 1, 0⟩ slerpQuat).multiplyScalar radius

/-- `getGreatCirclePoint(start, end, t, radius, offset)` from
`TrafficFlow.tsx`: the same interpolation, then (when an offset is given) a
perpendicular perturbation of `0.1 × |offset|` followed by re-projection
onto the sphere (`normalize` then `multiplyScalar radius`). -/
noncomputable def getGreatCirclePointOffset (start endv : Vec3) (t radius : ℝ)
    (offset : Option Vec3) : Vec3 :=
  let startQuat := setFromUnitVectors ⟨0, 1, 0⟩ start.normalize
  let endQuat := setFromUnitVectors ⟨0, 1, 0⟩ endv.normalize
  let slerpQuat := slerpQuaternions startQuat endQuat t
  let point := (Vec3.applyQuaternion ⟨0, 1, 0⟩ slerpQuat).multiplyScalar radius
  match offset with
  | none => point
  | some off =>
    let tangent := (endv.sub start).normalize
    let perpendicular := (point.cross tangent).normalize
    let point2 := point.add (perpendicular.multiplyScalar (off.length * 0.1))
    (point2.normalize).multiplyScalar radius

/-!
## The golden-angle spherical layout

`distributePointsOnSphere` from `NetworkTopology.tsx`.  Because claim C7
turns on what JavaScript does at `count = 1` (`0/0` is NaN), the arithmetic
of this function is modelled over `JsNum := Option ℝ`: `some r` is a finite
double of ideal value `r`, `none` is a non-finite double (NaN or ±∞).
Every operation the function uses maps a non-finite operand to a non-finite
result, and produces a non-finite result from finite operands exactly for
division by zero and the square root of a negative number. -/

/-- A JavaScript double: `some r` when finite, `none` when NaN or ±∞. -/
abbrev JsNum := Option ℝ

/-- Addition of doubles. -/
def jAdd : JsNum → JsNum → JsNum
  | some a, some b => some (a + b)
  | _, _ => none

/-- Subtraction of doubles. -/
def jSub : JsNum → JsNum → JsNum
  | some a, some b => some (a - b)
  | _, _ => none

/-- Multiplication of doubles. -/
def jMul : JsNum → JsNum → JsNum
  | some a, some b => some (a * b)
  | _, _ => none

/-- Division of doubles: division by zero (`0/0 = NaN`, `x/0 = ±∞`) is
non-finite. -/
noncomputable def jDiv : JsNum → JsNum → JsNum
  | some a, some b => if b = 0 then none else some (a / b)
  | _, _ => none

/-- `Math.sqrt`: NaN on negative input. -/
noncomputable def jSqrt : JsNum → JsNum
  | some a => if a < 0 then none else some (Real.sqrt a)
  | none => none

/-- `Math.cos` (NaN on non-finite input). -/
noncomputable def jCos : JsNum → JsNum
  | some a => some (Real.cos a)
  | none => none

/-- `Math.sin` (NaN on non-finite input). -/
noncomputable def jSin : JsNum → JsNum
  | some a => some (Real.sin a)
  | none => none

/-- `distributePointsOnSphere(count, radius)` from `NetworkTopology.tsx`:
for each `i < count`, `y = 1 - (i / (count - 1)) * 2`,
`radius_at_y = sqrt(1 - y·y)`, `theta = phi * i` with the golden angle
`phi = π(3 - √5)`, `x = cos(theta) * radius_at_y`,
`z = sin(theta) * radius_at_y`, and the pushed point is
`[x * radius, y * radius, z * radius]`. -/
noncomputable def distributePointsOnSphere (count : ℕ) (radius : ℝ) :
    List (JsNum × JsNum × JsNum) :=
  (List.range count).map (fun (i : ℕ) =>
    let y := jSub (some 1) (jMul (jDiv (some (i : ℝ)) (some ((count : ℝ) - 1))) (some 2))
    let radius_at_y := jSqrt (jSub (some 1) (jMul y y))
    let theta := jMul (some (Real.pi * (3 - Real.sqrt 5))) (some (i : ℝ))
    let x := jMul (jCos theta) radius_at_y
    let z := jMul (jSin theta) radius_at_y
    (jMul x (some radius), jMul y (some radius), jMul z (some radius)))

/-!
## The traffic-particle per-frame update (`TrafficFlow.tsx`)

The `useFrame` loop advances each particle's progress by `speed * delta`
and, whenever the result exceeds 1, resets it to 0 and draws a fresh random
offset.  Randomness is modelled by passing the freshly generated offsets in
as an oracle list. -/

/-- One particle's update:
`progress += speed * delta; if (progress > 1) { progress = 0; offset = fresh }`. -/
noncomputable def updateParticle (speed delta progress : ℝ) (offset fresh : Vec3) : ℝ × Vec3 :=
  let p := progress + speed * delta
  if 1 < p then (0, fresh) else (p, offset)

/-- The whole per-frame loop over the particle arrays (`progress.current`
and `offsets.current`, zipped), with `fresh` the oracle of offsets
`createRandomOffset(0.5)` would return for each particle. -/
noncomputable def updateParticles (speed delta : ℝ) (particles : List (ℝ × Vec3))
    (fresh : List Vec3) : List (ℝ × Vec3) :=
  (particles.zip fresh).map (fun pf => updateParticle speed delta pf.1.1 pf.1.2 pf.2)

/-!
## The tooltip engine (`NetworkTooltip.tsx`, `useTooltipAutoMovement`) -/

/-- A topology node (`{ id, position }`). -/
structure TNode where
  id : String
  position : Vec3

/-- A topology link (`{ source, target }`); traffic intensity is irrelevant
to the tooltip cycle. -/
structure TLink where
  source : String
  target : String

/-- The tooltip's display payload (`TooltipData`). -/
structure TooltipData where
  isLink : Bool
  title : String
  details : List String

/-- `AutoTooltipState`: anchor position, connector target, payload. -/
structure AutoTooltipState where
  position : Vec3
  targetPosition : Vec3
  data : TooltipData

/-- `ensureOutsideSphere(position, radius, offset)`: project the position
radially to `radius * offset` from the center. -/
noncomputable def ensureOutsideSphere (position : Vec3) (radius offset : ℝ) : Vec3 :=
  (position.normalize).multiplyScalar (radius * offset)

/-- `findClosestPointOnGreatCircle(start, end, point, radius)`: sample the
curve at 33 parameters `i/32` and keep the sample closest to `point`.  The
initial `minDistance = Infinity` / `closestPoint = (0,0,0)` state is
modelled as `none` (the first sample always beats `Infinity`). -/
noncomputable def findClosestPointOnGreatCircle (start endv point : Vec3)
    (radius : ℝ) : Vec3 :=
  let result := (List.range 33).foldl
    (fun (acc : Option (ℝ × Vec3)) i =>
      let pathPoint := getGreatCirclePoint start endv ((i : ℝ) / 32) radius
      let dist := point.distanceTo pathPoint
      match acc with
      | none => some (dist, pathPoint)
      | some md => if dist < md.1 then some (dist, pathPoint) else acc)
    none
  match result with
  | none => ⟨0, 0, 0⟩
  | some md => md.2

/-- `nodes.find(n => n.id === id)`. -/
def findNodeById (nodes : List TNode) (id : String) : Option TNode :=
  nodes.find? (fun n => n.id == id)

/-- `totalPoints = nodes.length + links.length`. -/
def totalPoints (nodes : List TNode) (links : List TLink) : ℕ :=
  nodes.length + links.length

/-- The node branch of `moveTooltip`: the sphere radius recomputed from
the node's own position, the anchor pushed outside the sphere, the node
itself as connector target. -/
noncomputable def nodeTooltip (node : TNode) : AutoTooltipState :=
  let radius := Real.sqrt (node.position.x * node.position.x +
    node.position.y * node.position.y + node.position.z * node.position.z)
  ⟨ensureOutsideSphere node.position radius 1.5, node.position,
    ⟨false, "Node " ++ node.id,
     ["Status: Active", "Uptime: 99.99%", "Load: Normal"]⟩⟩

/-- The link branch of `moveTooltip`: displays only when both endpoint ids
resolve (`if (sourceNode && targetNode)`); the anchor comes from the chord
midpoint pushed outside the sphere, the connector target is the closest
sample of the great-circle curve. -/
noncomputable def linkTooltip (nodes : List TNode) (link : TLink) :
    Option AutoTooltipState :=
  match findNodeById nodes link.source, findNodeById nodes link.target with
  | some sourceNode, some targetNode =>
    let radius := sourceNode.position.length
    let midpoint : Vec3 := ⟨(sourceNode.position.x + targetNode.position.x) / 2,
      (sourceNode.position.y + targetNode.position.y) / 2,
      (sourceNode.position.z + targetNode.position.z) / 2⟩
    let offsetPosition := ensureOutsideSphere midpoint radius 1.5
    let closestPoint := findClosestPointOnGreatCircle sourceNode.position
      targetNode.position midpoint radius
    some ⟨offsetPosition, closestPoint,
      ⟨true, "Link " ++ link.source ++ " → " ++ link.target,
       ["Status: Online", "Latency: low"]⟩⟩
  | _, _ => none

/-- The tooltip `moveTooltip` computes for the entity at index `i` of the
concatenated (nodes, then links) sequence
(`if (currentIndex < nodes.length) … else …`). -/
noncomputable def tooltipAtIndex (nodes : List TNode) (links : List TLink)
    (i : ℕ) : Option AutoTooltipState :=
  if i < nodes.length then
    match nodes[i]? with
    | none => none
    | some node => some (nodeTooltip node)
  else
    match links[i - nodes.length]? with
    | none => none
    | some link => linkTooltip nodes link

/-- One `moveTooltip()` call: advance the circular index
(`currentIndex = (currentIndex + 1) % totalPoints`), then display the
entity there; when the entity cannot be displayed (malformed link) the
previous tooltip state is left as-is (`setTooltipData` is not called). -/
noncomputable def moveTooltip (nodes : List TNode) (links : List TLink)
    (st : ℕ × Option AutoTooltipState) : ℕ × Option AutoTooltipState :=
  let i := (st.1 + 1) % totalPoints nodes links
  match tooltipAtIndex nodes links i with
  | some d => (i, some d)
  | none => (i, st.2)

/-- The circular index after `k` `moveTooltip()` calls, starting from the
hook's initial `currentIndex = useRef(0)`. -/
def cycleIndex (T : ℕ) : ℕ → ℕ
  | 0 => 0
  | k + 1 => (cycleIndex T k + 1) % T

/-- The default auto-cycle timer interval of `useTooltipAutoMovement`
(`intervalMs: number = 3000`). -/
def defaultIntervalMs : ℕ := 3000

/-!
## Link rendering (`NetworkTopology.tsx`)

A link is rendered only when both endpoint positions are known
(`if (sourcePos && targetPos)`); the position map is populated from refs
created for exactly the ids in `networkData.nodes`. -/

/-- The live position lookup: defined for exactly the node ids present in
the node list (the refs map is built from `networkData.nodes`). -/
def positionsOf (nodes : List TNode) (id : String) : Option Vec3 :=
  (findNodeById nodes id).map (fun n => n.position)

/-- The rendered links: each link paired with its resolved endpoint
positions, links with an unresolved endpoint silently dropped
(`return null`). -/
def renderLinks (nodes : List TNode) (links : List TLink) :
    List (TLink × Vec3 × Vec3) :=
  links.filterMap (fun l =>
    match positionsOf nodes l.source, positionsOf nodes l.target with
    | some a, some b => some (l, a, b)
    | _, _ => none)

/-!
## The camera controller (`CameraController` + `@tweenjs/tween.js`) -/

/-- `TWEEN.Easing.Cubic.InOut`. -/
noncomputable def cubicInOut (k : ℝ) : ℝ :=
  if 2 * k < 1 then 0.5 * ((2 * k) * (2 * k) * (2 * k))
  else 0.5 * ((2 * k - 2) * (2 * k - 2) * (2 * k - 2) + 2)

/-- The destination the `CameraController` effect computes on selection:
midpoint of entity position and tooltip anchor, normalized to a view
direction, camera placed back along it (`multiplyScalar(-25)`), then
`cameraPosition.y += 10`. -/
noncomputable def cameraDestination (targetPosition tooltipPosition : Vec3) : Vec3 :=
  let midpoint := (targetPosition.add tooltipPosition).multiplyScalar 0.5
  let viewDirection := midpoint.normalize
  let cameraPosition := viewDirection.multiplyScalar (-25)
  ⟨cameraPosition.x, cameraPosition.y + 10, cameraPosition.z⟩

/-- The tweened camera position `elapsedMs` milliseconds into the
animation: `TWEEN` interpolates each coordinate as
`start + (end - start) * easing(min(elapsed/duration, 1))` with a 1500 ms
duration and cubic in-out easing. -/
noncomputable def tweenPosition (current destination : Vec3) (elapsedMs : ℝ) : Vec3 :=
  current.add ((destination.sub current).multiplyScalar
    (cubicInOut (min (elapsedMs / 1500) 1)))

/-- What the `CameraController` effect installs for a selection: the
animated camera position as a function of elapsed time, and the orbit
target it pins (`controls.target.set(0, 0, 0)`). -/
structure CameraAnimation where
  positionAt : ℝ → Vec3
  orbitTarget : Vec3

/-- The `CameraController` effect for current camera position `current` and
a selected entity at `targetPosition` with tooltip anchor
`tooltipPosition`. -/
noncomputable def cameraController (current targetPosition tooltipPosition : Vec3) :
    CameraAnimation :=
  ⟨fun elapsedMs =>
     tweenPosition current (cameraDestination targetPosition tooltipPosition) elapsedMs,
   ⟨0, 0, 0⟩⟩

/-- The destination viewpoint as the spec describes it (§4.6): "the
midpoint between the entity's position and its tooltip anchor, normalized
to a direction from sphere center, then a camera position is placed back
along that direction at a fixed distance with added height bias" — distance
25, height bias +10 in y.  Stated separately from `cameraDestination` so
the code can be checked against the spec's words. -/
noncomputable def cameraDestinationSpec (entityPosition anchor : Vec3) : Vec3 :=
  (((entityPosition.add anchor).multiplyScalar (1 / 2)).normalize.multiplyScalar
    (-25)).add ⟨0, 10, 0⟩

/-!
## Basic facts about the three.js vector and quaternion primitives -/

theorem Vec3.lengthSq_nonneg (a : Vec3) : 0 ≤ a.lengthSq := by
  simp only [Vec3.lengthSq]
  nlinarith [mul_self_nonneg a.x, mul_self_nonneg a.y, mul_self_nonneg a.z]

theorem Vec3.mul_self_length (a : Vec3) : a.length * a.length = a.lengthSq :=
  Real.mul_self_sqrt a.lengthSq_nonneg

theorem Vec3.length_eq_zero_iff (a : Vec3) : a.length = 0 ↔ a.lengthSq = 0 := by
  rw [Vec3.length, Real.sqrt_eq_zero a.lengthSq_nonneg]

theorem Vec3.lengthSq_multiplyScalar (a : Vec3) (s : ℝ) :
    (a.multiplyScalar s).lengthSq = s * s * a.lengthSq := by
  simp only [Vec3.lengthSq, Vec3.multiplyScalar]
  ring

theorem Vec3.lengthSq_normalize (a : Vec3) (h : a.lengthSq ≠ 0) :
    a.normalize.lengthSq = 1 := by
  have hlen : a.length ≠ 0 := fun h0 => h (a.length_eq_zero_iff.mp h0)
  have hmul2 : a.length ^ 2 = a.lengthSq := by rw [sq]; exact a.mul_self_length
  rw [Vec3.normalize, if_neg hlen, Vec3.divideScalar, Vec3.lengthSq_multiplyScalar]
  field_simp
  linarith [hmul2]

theorem Vec3.normalize_eq (a : Vec3) (h : a.length ≠ 0) :
    a.normalize = a.multiplyScalar (1 / a.length) := by
  rw [Vec3.normalize, if_neg h, Vec3.divideScalar]

theorem Quat.nonneg_lengthSq (q : Quat) : 0 ≤ q.lengthSq := by
  simp only [Quat.lengthSq]
  nlinarith [mul_self_nonneg q.x, mul_self_nonneg q.y, mul_self_nonneg q.z,
    mul_self_nonneg q.w]

theorem Quat.length_mul_self (q : Quat) : q.length * q.length = q.lengthSq :=
  Real.mul_self_sqrt q.nonneg_lengthSq

theorem Quat.length_eq_zero (q : Quat) : q.length = 0 ↔ q.lengthSq = 0 := by
  rw [Quat.length, Real.sqrt_eq_zero q.nonneg_lengthSq]

/-- `Quaternion.normalize` always returns a unit quaternion: the zero
quaternion is replaced by the identity, everything else is scaled to unit
length. -/
theorem Quat.normalize_lengthSq (q : Quat) : (Quat.normalize q).lengthSq = 1 := by
  rw [Quat.normalize]
  split_ifs with h
  · simp [Quat.lengthSq]
  · have hmul2 : q.length ^ 2 = q.lengthSq := by rw [sq]; exact q.length_mul_self
    simp only [Quat.lengthSq] at hmul2 ⊢
    field_simp
    linarith [hmul2]

theorem Quat.lengthSq_neg (q : Quat) : q.neg.lengthSq = q.lengthSq := by
  simp only [Quat.lengthSq, Quat.neg]
  ring

theorem Quat.dot_comm (a b : Quat) : Quat.dot a b = Quat.dot b a := by
  simp only [Quat.dot]
  ring

theorem Quat.dot_neg_right (a b : Quat) : Quat.dot a b.neg = -Quat.dot a b := by
  simp only [Quat.dot, Quat.neg]
  ring

/-- Negating a quaternion does not change the rotation it applies. -/
theorem Vec3.applyQuaternion_neg (v : Vec3) (q : Quat) :
    v.applyQuaternion q.neg = v.applyQuaternion q := by
  simp only [Vec3.applyQuaternion, Quat.neg]
  ext <;> ring

/-- The exact polynomial identity behind norm preservation of
`applyQuaternion`: the defect is proportional to `lengthSq q - 1`. -/
theorem Vec3.applyQuaternion_lengthSq (v : Vec3) (q : Quat) :
    (v.applyQuaternion q).lengthSq = v.lengthSq + 4 * (q.lengthSq - 1) *
      ((q.x * q.x + q.y * q.y + q.z * q.z) * v.lengthSq -
        (q.x * v.x + q.y * v.y + q.z * v.z) ^ 2) := by
  simp only [Vec3.applyQuaternion, Vec3.lengthSq, Quat.lengthSq]
  ring

/-- A unit quaternion preserves the squared length. -/
theorem Vec3.applyQuaternion_lengthSq_of_unit (v : Vec3) (q : Quat)
    (h : q.lengthSq = 1) : (v.applyQuaternion q).lengthSq = v.lengthSq := by
  rw [Vec3.applyQuaternion_lengthSq, h]
  ring

/-- Both branches of `setFromUnitVectors` end in a `normalize`, so the
result is always a unit quaternion. -/
theorem setFromUnitVectors_lengthSq (a b : Vec3) :
    (setFromUnitVectors a b).lengthSq = 1 := by
  rw [setFromUnitVectors]
  split_ifs <;> exact Quat.normalize_lengthSq _

/-- Cauchy–Schwarz equality case: unit quaternions with dot product at
least 1 are equal. -/
theorem Quat.eq_of_one_le_dot (a b : Quat) (ha : a.lengthSq = 1)
    (hb : b.lengthSq = 1) (h : 1 ≤ Quat.dot a b) : b = a := by
  have hsum : (a.x - b.x) ^ 2 + (a.y - b.y) ^ 2 + (a.z - b.z) ^ 2 +
      (a.w - b.w) ^ 2 = 2 - 2 * Quat.dot a b := by
    simp only [Quat.lengthSq] at ha hb
    simp only [Quat.dot]
    linear_combination ha + hb
  have hx : (a.x - b.x) ^ 2 = 0 := by nlinarith [sq_nonneg (a.y - b.y), sq_nonneg (a.z - b.z), sq_nonneg (a.w - b.w)]
  have hy : (a.y - b.y) ^ 2 = 0 := by nlinarith [sq_nonneg (a.x - b.x), sq_nonneg (a.z - b.z), sq_nonneg (a.w - b.w)]
  have hz : (a.z - b.z) ^ 2 = 0 := by nlinarith [sq_nonneg (a.x - b.x), sq_nonneg (a.y - b.y), sq_nonneg (a.w - b.w)]
  have hw : (a.w - b.w) ^ 2 = 0 := by nlinarith [sq_nonneg (a.x - b.x), sq_nonneg (a.y - b.y), sq_nonneg (a.z - b.z)]
  rw [pow_eq_zero_iff (two_ne_zero), sub_eq_zero] at hx hy hz hw
  ext <;> simp_all

/-- Cauchy–Schwarz equality case: unit quaternions with dot product at
most -1 are negatives of each other. -/
theorem Quat.eq_neg_of_dot_le_neg_one (a b : Quat) (ha : a.lengthSq = 1)
    (hb : b.lengthSq = 1) (h : Quat.dot a b ≤ -1) : b = a.neg := by
  have hsum : (a.x + b.x) ^ 2 + (a.y + b.y) ^ 2 + (a.z + b.z) ^ 2 +
      (a.w + b.w) ^ 2 = 2 + 2 * Quat.dot a b := by
    simp only [Quat.lengthSq] at ha hb
    simp only [Quat.dot]
    linear_combination ha + hb
  have hx : (a.x + b.x) ^ 2 = 0 := by nlinarith [sq_nonneg (a.y + b.y), sq_nonneg (a.z + b.z), sq_nonneg (a.w + b.w)]
  have hy : (a.y + b.y) ^ 2 = 0 := by nlinarith [sq_nonneg (a.x + b.x), sq_nonneg (a.z + b.z), sq_nonneg (a.w + b.w)]
  have hz : (a.z + b.z) ^ 2 = 0 := by nlinarith [sq_nonneg (a.x + b.x), sq_nonneg (a.y + b.y), sq_nonneg (a.w + b.w)]
  have hw : (a.w + b.w) ^ 2 = 0 := by nlinarith [sq_nonneg (a.x + b.x), sq_nonneg (a.y + b.y), sq_nonneg (a.z + b.z)]
  rw [pow_eq_zero_iff (two_ne_zero)] at hx hy hz hw
  have hx' : b.x = -a.x := by linarith [hx]
  have hy' : b.y = -a.y := by linarith [hy]
  have hz' : b.z = -a.z := by linarith [hz]
  have hw' : b.w = -a.w := by linarith [hw]
  ext <;> simp [Quat.neg, hx', hy', hz', hw']

/-- The sine addition law in the form needed for the slerp weight algebra. -/
theorem sin_sq_add_sin_sq (a b : ℝ) :
    Real.sin a ^ 2 + Real.sin b ^ 2 +
      2 * Real.sin a * Real.sin b * Real.cos (a + b) = Real.sin (a + b) ^ 2 := by
  rw [Real.sin_add, Real.cos_add]
  linear_combination (-(Real.sin a ^ 2)) * (Real.sin_sq_add_cos_sq b) +
    (-(Real.sin b ^ 2)) * (Real.sin_sq_add_cos_sq a)

/-- `atan2` recovers cosine and sine on the unit circle (upper half). -/
theorem cos_sin_atan2 (sh c : ℝ) (hsh : 0 < sh) (h : c * c + sh * sh = 1) :
    Real.cos (atan2 sh c) = c ∧ Real.sin (atan2 sh c) = sh := by
  have hz : (⟨c, sh⟩ : ℂ) ≠ 0 := by
    intro h0
    rw [Complex.ext_iff] at h0
    exact absurd h0.2 (by simpa using hsh.ne')
  have habs : Complex.abs ⟨c, sh⟩ = 1 := by
    rw [Complex.abs_apply, Complex.normSq_mk]
    rw [h, Real.sqrt_one]
  constructor
  · rw [atan2, Complex.cos_arg hz, habs]
    simp
  · rw [atan2, Complex.sin_arg, habs]
    simp

/-- The trigonometric branch of `slerp` produces a unit quaternion. -/
theorem trig_combo_lengthSq (qa qb2 : Quat) (t c : ℝ) (ha : qa.lengthSq = 1)
    (hb : qb2.lengthSq = 1) (hd : Quat.dot qa qb2 = c) (hc0 : 0 ≤ c)
    (hc1 : c < 1) :
    Quat.lengthSq
      ⟨qa.x * (Real.sin ((1 - t) * atan2 (Real.sqrt (1 - c * c)) c) / Real.sqrt (1 - c * c)) +
         qb2.x * (Real.sin (t * atan2 (Real.sqrt (1 - c * c)) c) / Real.sqrt (1 - c * c)),
       qa.y * (Real.sin ((1 - t) * atan2 (Real.sqrt (1 - c * c)) c) / Real.sqrt (1 - c * c)) +
         qb2.y * (Real.sin (t * atan2 (Real.sqrt (1 - c * c)) c) / Real.sqrt (1 - c * c)),
       qa.z * (Real.sin ((1 - t) * atan2 (Real.sqrt (1 - c * c)) c) / Real.sqrt (1 - c * c)) +
         qb2.z * (Real.sin (t * atan2 (Real.sqrt (1 - c * c)) c) / Real.sqrt (1 - c * c)),
       qa.w * (Real.sin ((1 - t) * atan2 (Real.sqrt (1 - c * c)) c) / Real.sqrt (1 - c * c)) +
         qb2.w * (Real.sin (t * atan2 (Real.sqrt (1 - c * c)) c) / Real.sqrt (1 - c * c))⟩ = 1 := by
  have hpos : 0 < 1 - c * c := by nlinarith
  have hsh : 0 < Real.sqrt (1 - c * c) := Real.sqrt_pos.mpr hpos
  have hsq : Real.sqrt (1 - c * c) * Real.sqrt (1 - c * c) = 1 - c * c :=
    Real.mul_self_sqrt hpos.le
  obtain ⟨hcos, hsin⟩ := cos_sin_atan2 (Real.sqrt (1 - c * c)) c hsh (by linarith)
  have hab : (1 - t) * atan2 (Real.sqrt (1 - c * c)) c +
      t * atan2 (Real.sqrt (1 - c * c)) c = atan2 (Real.sqrt (1 - c * c)) c := by
    ring
  have hid := sin_sq_add_sin_sq ((1 - t) * atan2 (Real.sqrt (1 - c * c)) c)
    (t * atan2 (Real.sqrt (1 - c * c)) c)
  rw [hab, hcos, hsin] at hid
  have hkey : Quat.lengthSq
      ⟨qa.x * (Real.sin ((1 - t) * atan2 (Real.sqrt (1 - c * c)) c) / Real.sqrt (1 - c * c)) +
         qb2.x * (Real.sin (t * atan2 (Real.sqrt (1 - c * c)) c) / Real.sqrt (1 - c * c)),
       qa.y * (Real.sin ((1 - t) * atan2 (Real.sqrt (1 - c * c)) c) / Real.sqrt (1 - c * c)) +
         qb2.y * (Real.sin (t * atan2 (Real.sqrt (1 - c * c)) c) / Real.sqrt (1 - c * c)),
       qa.z * (Real.sin ((1 - t) * atan2 (Real.sqrt (1 - c * c)) c) / Real.sqrt (1 - c * c)) +
         qb2.z * (Real.sin (t * atan2 (Real.sqrt (1 - c * c)) c) / Real.sqrt (1 - c * c)),
       qa.w * (Real.sin ((1 - t) * atan2 (Real.sqrt (1 - c * c)) c) / Real.sqrt (1 - c * c)) +
         qb2.w * (Real.sin (t * atan2 (Real.sqrt (1 - c * c)) c) / Real.sqrt (1 - c * c))⟩ =
      qa.lengthSq * (Real.sin ((1 - t) * atan2 (Real.sqrt (1 - c * c)) c) / Real.sqrt (1 - c * c)) ^ 2 +
      2 * Quat.dot qa qb2 *
        ((Real.sin ((1 - t) * atan2 (Real.sqrt (1 - c * c)) c) / Real.sqrt (1 - c * c)) *
         (Real.sin (t * atan2 (Real.sqrt (1 - c * c)) c) / Real.sqrt (1 - c * c))) +
      qb2.lengthSq * (Real.sin (t * atan2 (Real.sqrt (1 - c * c)) c) / Real.sqrt (1 - c * c)) ^ 2 := by
    simp only [Quat.lengthSq, Quat.dot]
    ring
  have hsq2 : Real.sqrt (1 - c * c) ^ 2 = 1 - c * c := by rw [sq]; exact hsq
  rw [hkey, ha, hb, hd]
  field_simp
  linear_combination hid + hsq2

/-- `slerpQuaternions` of unit quaternions is a unit quaternion, in every
branch of the three.js implementation. -/
theorem slerpQuaternions_lengthSq (qa qb : Quat) (t : ℝ) (ha : qa.lengthSq = 1)
    (hb : qb.lengthSq = 1) : (slerpQuaternions qa qb t).lengthSq = 1 := by
  by_cases ht0 : t = 0
  · subst ht0
    simp [slerpQuaternions, ha]
  by_cases ht1 : t = 1
  · subst ht1
    simp [slerpQuaternions, hb]
  rw [slerpQuaternions]
  simp only [if_neg ht0, if_neg ht1]
  by_cases hneg : Quat.dot qa qb < 0
  · simp only [if_pos hneg]
    by_cases hone : 1 ≤ -Quat.dot qa qb
    · simp only [if_pos hone]
      exact ha
    · simp only [if_neg hone]
      by_cases hsmall : 1 - -Quat.dot qa qb * -Quat.dot qa qb ≤ jsEPSILON
      · simp only [if_pos hsmall]
        exact Quat.normalize_lengthSq _
      · simp only [if_neg hsmall]
        exact trig_combo_lengthSq qa qb.neg t (-Quat.dot qa qb) ha
          (by rw [Quat.lengthSq_neg]; exact hb) (Quat.dot_neg_right qa qb)
          (neg_nonneg.mpr hneg.le) (not_le.mp hone)
  · simp only [if_neg hneg]
    by_cases hone : 1 ≤ Quat.dot qa qb
    · simp only [if_pos hone]
      exact ha
    · simp only [if_neg hone]
      by_cases hsmall : 1 - Quat.dot qa qb * Quat.dot qa qb ≤ jsEPSILON
      · simp only [if_pos hsmall]
        exact Quat.normalize_lengthSq _
      · simp only [if_neg hsmall]
        exact trig_combo_lengthSq qa qb t (Quat.dot qa qb) ha hb rfl
          (not_lt.mp hneg) (not_le.mp hone)

/-- Normalizing a negated quaternion yields the same rotation. -/
theorem Vec3.applyQuaternion_normalize_neg (v : Vec3) (u : Quat) :
    v.applyQuaternion (Quat.normalize u.neg) = v.applyQuaternion (Quat.normalize u) := by
  have hlen : u.neg.length = u.length := by
    rw [Quat.length, Quat.length, Quat.lengthSq_neg]
  rw [Quat.normalize, Quat.normalize, hlen]
  split_ifs with h
  · rfl
  · simp only [Quat.neg, Vec3.applyQuaternion]
    ext <;> ring

/-- Swap symmetry of the three.js slerp at the rotation level: slerping
from `qb` to `qa` by `1 - t` applies the same rotation as slerping from
`qa` to `qb` by `t`, in every branch (the two results are either equal or
negatives of each other). -/
theorem applyQuaternion_slerp_swap (qa qb : Quat) (t : ℝ) (v : Vec3)
    (ha : qa.lengthSq = 1) (hb : qb.lengthSq = 1) :
    v.applyQuaternion (slerpQuaternions qb qa (1 - t)) =
      v.applyQuaternion (slerpQuaternions qa qb t) := by
  have key : ∀ u1 u2 : Quat, u1 = u2.neg →
      v.applyQuaternion u1 = v.applyQuaternion u2 := by
    intro u1 u2 h
    rw [h, Vec3.applyQuaternion_neg]
  have keyN : ∀ u1 u2 : Quat, u1 = u2.neg →
      v.applyQuaternion (Quat.normalize u1) = v.applyQuaternion (Quat.normalize u2) := by
    intro u1 u2 h
    rw [h, Vec3.applyQuaternion_normalize_neg]
  by_cases ht0 : t = 0
  · subst ht0
    norm_num [slerpQuaternions]
  by_cases ht1 : t = 1
  · subst ht1
    norm_num [slerpQuaternions]
  have h1t0 : ¬(1 - t = 0) := fun h => ht1 (by linarith)
  have h1t1 : ¬(1 - t = 1) := fun h => ht0 (by linarith)
  rw [slerpQuaternions, slerpQuaternions]
  simp only [if_neg ht0, if_neg ht1, if_neg h1t0, if_neg h1t1]
  rw [Quat.dot_comm qb qa]
  by_cases hneg : Quat.dot qa qb < 0
  · simp only [if_pos hneg]
    by_cases hone : 1 ≤ -Quat.dot qa qb
    · simp only [if_pos hone]
      rw [Quat.eq_neg_of_dot_le_neg_one qa qb ha hb (by linarith),
        Vec3.applyQuaternion_neg]
    · simp only [if_neg hone]
      by_cases hsmall : 1 - -Quat.dot qa qb * -Quat.dot qa qb ≤ jsEPSILON
      · simp only [if_pos hsmall]
        apply keyN
        ext <;> simp only [Quat.neg] <;> ring
      · simp only [if_neg hsmall]
        apply key
        ext <;> simp only [Quat.neg] <;>
          rw [show (1 : ℝ) - (1 - t) = t from by ring] <;> ring
  · simp only [if_neg hneg]
    by_cases hone : 1 ≤ Quat.dot qa qb
    · simp only [if_pos hone]
      rw [Quat.eq_of_one_le_dot qa qb ha hb hone]
    · simp only [if_neg hone]
      by_cases hsmall : 1 - Quat.dot qa qb * Quat.dot qa qb ≤ jsEPSILON
      · simp only [if_pos hsmall]
        congr 2
        ext <;> ring
      · simp only [if_neg hsmall]
        congr 1
        ext <;> rw [show (1 : ℝ) - (1 - t) = t from by ring] <;> ring

theorem Vec3.dot_multiplyScalar_right (a b : Vec3) (s : ℝ) :
    a.dot (b.multiplyScalar s) = s * a.dot b := by
  simp only [Vec3.dot, Vec3.multiplyScalar]
  ring

theorem Vec3.dot_cross_left (a b : Vec3) : a.dot (a.cross b) = 0 := by
  simp only [Vec3.dot, Vec3.cross]
  ring

theorem Vec3.lengthSq_add_multiplyScalar (a b : Vec3) (m : ℝ) :
    (a.add (b.multiplyScalar m)).lengthSq =
      a.lengthSq + 2 * m * a.dot b + m * m * b.lengthSq := by
  simp only [Vec3.lengthSq, Vec3.add, Vec3.multiplyScalar, Vec3.dot]
  ring

/-- Perturbing a point of length `radius` along a normalized cross-product
direction and re-projecting onto the sphere gives back a point of length
exactly `radius` — the `TrafficFlow.tsx` offset step. -/
theorem length_reproject (p tangent : Vec3) (m radius : ℝ)
    (hp : p.lengthSq = radius * radius) (hR : 0 < radius) :
    (((p.add (((p.cross tangent).normalize).multiplyScalar m)).normalize).multiplyScalar
      radius).length = radius := by
  have hperp : p.dot ((p.cross tangent).normalize) = 0 := by
    rw [Vec3.normalize, Vec3.divideScalar, Vec3.dot_multiplyScalar_right,
      Vec3.dot_cross_left, mul_zero]
  have h2 : (p.add (((p.cross tangent).normalize).multiplyScalar m)).lengthSq =
      radius * radius + m * m * ((p.cross tangent).normalize).lengthSq := by
    rw [Vec3.lengthSq_add_multiplyScalar, hp, hperp]
    ring
  have hne : (p.add (((p.cross tangent).normalize).multiplyScalar m)).lengthSq ≠ 0 := by
    have hnn := Vec3.lengthSq_nonneg ((p.cross tangent).normalize)
    nlinarith
  rw [Vec3.length, Vec3.lengthSq_multiplyScalar, Vec3.lengthSq_normalize _ hne,
    mul_one, Real.sqrt_mul_self hR.le]

/-- Claim C8: for every pair of input vectors and every interpolation
parameter `t`, evaluating the great-circle interpolation at `t` equals
evaluating it at `1 - t` with `start` and `end` swapped (swap symmetry of
the curve).  Proved for all real `t` and arbitrary input vectors. -/
theorem c8_great_circle_swap_symmetry (start endv : Vec3) (t radius : ℝ) :
    getGreatCirclePoint start endv t radius =
      getGreatCirclePoint endv start (1 - t) radius := by
  simp only [getGreatCirclePoint]
  exact congrArg (fun w => Vec3.multiplyScalar w radius)
    (applyQuaternion_slerp_swap (setFromUnitVectors ⟨0, 1, 0⟩ start.normalize)
      (setFromUnitVectors ⟨0, 1, 0⟩ endv.normalize) t ⟨0, 1, 0⟩
      (setFromUnitVectors_lengthSq _ _) (setFromUnitVectors_lengthSq _ _)).symm

/-- Claim C5: every point produced by the `TrafficFlow.tsx` great-circle
evaluation lies exactly on the sphere: for every `t` and every radius
`R > 0` the returned point has magnitude `R`, with or without a lateral
particle offset, because the perturbed point is re-projected onto the
sphere surface.  Proved for all real `t` and arbitrary endpoint
vectors. -/
theorem c5_traffic_point_on_sphere (start endv : Vec3) (t radius : ℝ)
    (offset : Option Vec3) (hR : 0 < radius) :
    (getGreatCirclePointOffset start endv t radius offset).length = radius := by
  have hYl : (⟨0, 1, 0⟩ : Vec3).lengthSq = 1 := by norm_num [Vec3.lengthSq]
  have hunit := slerpQuaternions_lengthSq
    (setFromUnitVectors ⟨0, 1, 0⟩ start.normalize)
    (setFromUnitVectors ⟨0, 1, 0⟩ endv.normalize) t
    (setFromUnitVectors_lengthSq _ _) (setFromUnitVectors_lengthSq _ _)
  have hptSq : ((Vec3.applyQuaternion ⟨0, 1, 0⟩
      (slerpQuaternions (setFromUnitVectors ⟨0, 1, 0⟩ start.normalize)
        (setFromUnitVectors ⟨0, 1, 0⟩ endv.normalize) t)).multiplyScalar
        radius).lengthSq = radius * radius := by
    rw [Vec3.lengthSq_multiplyScalar,
      Vec3.applyQuaternion_lengthSq_of_unit _ _ hunit, hYl]
    ring
  cases offset with
  | none =>
    simp only [getGreatCirclePointOffset]
    rw [Vec3.length, hptSq]
    exact Real.sqrt_mul_self hR.le
  | some off =>
    simp only [getGreatCirclePointOffset]
    exact length_reproject _ _ _ radius hptSq hR

/-- Witness for C5 at a concrete input. -/
theorem c5_traffic_point_on_sphere_witness :
    (0 : ℝ) < 8 ∧
      (getGreatCirclePointOffset ⟨8, 0, 0⟩ ⟨0, 8, 0⟩ (1 / 2) 8
        (some ⟨1 / 10, 1 / 5, 0⟩)).length = 8 :=
  ⟨by norm_num,
   c5_traffic_point_on_sphere ⟨8, 0, 0⟩ ⟨0, 8, 0⟩ (1 / 2) 8
     (some ⟨1 / 10, 1 / 5, 0⟩) (by norm_num)⟩

/-- Applying the normalized quaternion `((v × Y)ᵀ-style components, 1 + v.y)`
that `setFromUnitVectors((0,1,0), v)` builds in its generic branch to the
reference `(0,1,0)` yields `v`, for unit `v` with `v.y + 1 > 0`. -/
theorem applyY_quat_raw (v : Vec3) (hv : v.lengthSq = 1) (hy : 0 < v.y + 1) :
    Vec3.applyQuaternion ⟨0, 1, 0⟩ (Quat.normalize ⟨v.z, 0, -v.x, v.y + 1⟩) = v := by
  have hS : (Quat.mk v.z 0 (-v.x) (v.y + 1)).lengthSq = 2 * (v.y + 1) := by
    simp only [Quat.lengthSq, Vec3.lengthSq] at hv ⊢
    linear_combination hv
  have hSpos : 0 < (Quat.mk v.z 0 (-v.x) (v.y + 1)).lengthSq := by
    rw [hS]
    linarith
  have hlen : (Quat.mk v.z 0 (-v.x) (v.y + 1)).length ≠ 0 := by
    rw [Quat.length]
    exact Real.sqrt_ne_zero'.mpr hSpos
  have hlen2 : (Quat.mk v.z 0 (-v.x) (v.y + 1)).length ^ 2 = 2 * (v.y + 1) := by
    rw [sq, Quat.length_mul_self, hS]
  rw [Quat.normalize, if_neg hlen]
  have hvsq : v.x * v.x + v.y * v.y + v.z * v.z = 1 := hv
  ext
  · simp only [Vec3.applyQuaternion]
    field_simp
    linear_combination (-v.x) * hlen2
  · simp only [Vec3.applyQuaternion]
    field_simp
    linear_combination (1 - v.y) * hlen2 - 2 * hvsq
  · simp only [Vec3.applyQuaternion]
    field_simp
    linear_combination (-v.z) * hlen2

/-- With reference vector `(0,1,0)`, the generic branch of
`setFromUnitVectors` builds the quaternion `(v.z, 0, -v.x, v.y + 1)`
(normalized). -/
theorem setFromUnitVectorsY_eq (v : Vec3) (h : ¬(v.y + 1 < jsEPSILON)) :
    setFromUnitVectors ⟨0, 1, 0⟩ v = Quat.normalize ⟨v.z, 0, -v.x, v.y + 1⟩ := by
  simp only [setFromUnitVectors]
  have e : Vec3.dot ⟨0, 1, 0⟩ v + 1 = v.y + 1 := by
    simp [Vec3.dot]
  rw [e, if_neg h]
  congr 1
  ext <;> simp

/-- With reference vector `(0,1,0)`, the antipodal branch of
`setFromUnitVectors` returns the fixed axis quaternion `(0,0,1,0)`. -/
theorem setFromUnitVectorsY_antipodal (v : Vec3) (h : v.y + 1 < jsEPSILON) :
    setFromUnitVectors ⟨0, 1, 0⟩ v = ⟨0, 0, 1, 0⟩ := by
  simp only [setFromUnitVectors]
  have e : Vec3.dot ⟨0, 1, 0⟩ v + 1 = v.y + 1 := by
    simp [Vec3.dot]
  rw [e, if_pos h]
  rw [if_neg (by norm_num : ¬(|(0 : ℝ)| > |(0 : ℝ)|))]
  have hlen : (Quat.mk 0 (-0) 1 0).length = 1 := by
    rw [Quat.length]
    simp [Quat.lengthSq]
  rw [Quat.normalize, if_neg (by rw [hlen]; norm_num), hlen]
  ext <;> norm_num

/-- Applying the `(0,0,1,0)` antipodal-branch quaternion to the
reference `(0,1,0)` gives the south pole `(0,-1,0)`. -/
theorem applyY_antipodal_quat :
    Vec3.applyQuaternion ⟨0, 1, 0⟩ ⟨0, 0, 1, 0⟩ = ⟨0, -1, 0⟩ := by
  simp only [Vec3.applyQuaternion]
  ext <;> norm_num

/-- The great-circle interpolation at `t = 0` returns `start` whenever
`start` lies on the sphere of radius `R` and is not inside the open
`Number.EPSILON` sliver around (but distinct from) the south pole of the
internal reference axis. -/
theorem gcp_at_zero (start endv : Vec3) (R : ℝ) (hR : 0 < R)
    (hs : start.lengthSq = R ^ 2)
    (hval : jsEPSILON ≤ 1 + start.y / R ∨ start = ⟨0, -R, 0⟩) :
    getGreatCirclePoint start endv 0 R = start := by
  have hRne : R ≠ 0 := hR.ne'
  have hlen : start.length = R := by
    rw [Vec3.length, hs, Real.sqrt_sq hR.le]
  have hnorm : start.normalize = start.multiplyScalar (1 / R) := by
    rw [Vec3.normalize_eq start (by rw [hlen]; exact hRne), hlen]
  have hunit : (start.normalize).lengthSq = 1 :=
    Vec3.lengthSq_normalize start (by rw [hs]; exact pow_ne_zero 2 hRne)
  simp only [getGreatCirclePoint]
  rw [slerpQuaternions, if_pos rfl]
  rcases hval with hval | hval
  · have hyn : (start.normalize).y = start.y * (1 / R) := by
      rw [hnorm]
      rfl
    have hy1 : jsEPSILON ≤ (start.normalize).y + 1 := by
      rw [hyn]
      have : start.y * (1 / R) = start.y / R := by ring
      rw [this]
      linarith
    have heps : (0 : ℝ) < jsEPSILON := by norm_num [jsEPSILON]
    rw [setFromUnitVectorsY_eq (start.normalize) (not_lt.mpr hy1),
      applyY_quat_raw (start.normalize) hunit (by linarith), hnorm]
    ext <;> simp only [Vec3.multiplyScalar] <;> field_simp
  · have hnpole : start.normalize = ⟨0, -1, 0⟩ := by
      rw [hnorm, hval]
      ext <;> simp only [Vec3.multiplyScalar] <;> field_simp
    have heps : (0 : ℝ) < jsEPSILON := by norm_num [jsEPSILON]
    rw [hnpole, setFromUnitVectorsY_antipodal ⟨0, -1, 0⟩ (by norm_num; exact heps),
      applyY_antipodal_quat, hval]
    ext <;> simp only [Vec3.multiplyScalar] <;> ring

/-- The great-circle interpolation at `t = 1` returns `end` under the same
conditions on `end`. -/
theorem gcp_at_one (start endv : Vec3) (R : ℝ) (hR : 0 < R)
    (he : endv.lengthSq = R ^ 2)
    (hval : jsEPSILON ≤ 1 + endv.y / R ∨ endv = ⟨0, -R, 0⟩) :
    getGreatCirclePoint start endv 1 R = endv := by
  have hRne : R ≠ 0 := hR.ne'
  have hlen : endv.length = R := by
    rw [Vec3.length, he, Real.sqrt_sq hR.le]
  have hnorm : endv.normalize = endv.multiplyScalar (1 / R) := by
    rw [Vec3.normalize_eq endv (by rw [hlen]; exact hRne), hlen]
  have hunit : (endv.normalize).lengthSq = 1 :=
    Vec3.lengthSq_normalize endv (by rw [he]; exact pow_ne_zero 2 hRne)
  simp only [getGreatCirclePoint]
  rw [slerpQuaternions, if_neg (one_ne_zero), if_pos rfl]
  rcases hval with hval | hval
  · have hyn : (endv.normalize).y = endv.y * (1 / R) := by
      rw [hnorm]
      rfl
    have hy1 : jsEPSILON ≤ (endv.normalize).y + 1 := by
      rw [hyn]
      have : endv.y * (1 / R) = endv.y / R := by ring
      rw [this]
      linarith
    rw [setFromUnitVectorsY_eq (endv.normalize) (not_lt.mpr hy1),
      applyY_quat_raw (endv.normalize) hunit (by
        have heps : (0 : ℝ) < jsEPSILON := by norm_num [jsEPSILON]
        linarith),
      hnorm]
    ext <;> simp only [Vec3.multiplyScalar] <;> field_simp
  · have hnpole : endv.normalize = ⟨0, -1, 0⟩ := by
      rw [hnorm, hval]
      ext <;> simp only [Vec3.multiplyScalar] <;> field_simp
    have heps : (0 : ℝ) < jsEPSILON := by norm_num [jsEPSILON]
    rw [hnpole, setFromUnitVectorsY_antipodal ⟨0, -1, 0⟩ (by norm_num; exact heps),
      applyY_antipodal_quat, hval]
    ext <;> simp only [Vec3.multiplyScalar] <;> ring

/-- The failure mode behind the C1 counterexample: when the normalized
start direction falls inside the open `Number.EPSILON` sliver around the
south pole of the internal reference axis `(0,1,0)`, evaluation at `t = 0`
returns the exact south pole `(0,-R,0)` instead of `start`. -/
theorem gcp_at_zero_nearpole (start endv : Vec3) (R : ℝ) (hR : 0 < R)
    (hs : start.lengthSq = R ^ 2) (hnear : start.y / R + 1 < jsEPSILON) :
    getGreatCirclePoint start endv 0 R = ⟨0, -R, 0⟩ := by
  have hRne : R ≠ 0 := hR.ne'
  have hlen : start.length = R := by
    rw [Vec3.length, hs, Real.sqrt_sq hR.le]
  have hnorm : start.normalize = start.multiplyScalar (1 / R) := by
    rw [Vec3.normalize_eq start (by rw [hlen]; exact hRne), hlen]
  have hyn : (start.normalize).y + 1 < jsEPSILON := by
    rw [hnorm]
    show start.y * (1 / R) + 1 < jsEPSILON
    have e : start.y * (1 / R) = start.y / R := by ring
    rw [e]
    exact hnear
  simp only [getGreatCirclePoint]
  rw [slerpQuaternions, if_pos rfl, setFromUnitVectorsY_antipodal _ hyn,
    applyY_antipodal_quat]
  ext <;> simp [Vec3.multiplyScalar]

/-- Counterexample to claim C1 as stated: a valid pair of unit-sphere
vectors, far from antipodal to each other, for which evaluation at `t = 0`
does not return `start`: `start` lies just inside the `Number.EPSILON`
antipodal test of the internal reference axis `(0,1,0)`, so the code takes
the arbitrary-orthogonal-axis branch and `t = 0` evaluates to the exact
south pole instead of `start`. -/
theorem c1_counterexample :
    (Vec3.mk (Real.sqrt (1 - (1 / 2 ^ 53 - 1) ^ 2)) (1 / 2 ^ 53 - 1) 0).lengthSq = 1 ^ 2 ∧
    (Vec3.mk 1 0 0).lengthSq = 1 ^ 2 ∧
    Vec3.mk (Real.sqrt (1 - (1 / 2 ^ 53 - 1) ^ 2)) (1 / 2 ^ 53 - 1) 0 ≠
      (Vec3.mk 1 0 0).multiplyScalar (-1) ∧
    getGreatCirclePoint
      (Vec3.mk (Real.sqrt (1 - (1 / 2 ^ 53 - 1) ^ 2)) (1 / 2 ^ 53 - 1) 0)
      (Vec3.mk 1 0 0) 0 1 ≠
      Vec3.mk (Real.sqrt (1 - (1 / 2 ^ 53 - 1) ^ 2)) (1 / 2 ^ 53 - 1) 0 := by
  have hsqpos : (0 : ℝ) < 1 - (1 / 2 ^ 53 - 1) ^ 2 := by norm_num
  have hx2 := Real.mul_self_sqrt hsqpos.le
  have hm : (Vec3.mk (Real.sqrt (1 - (1 / 2 ^ 53 - 1) ^ 2)) (1 / 2 ^ 53 - 1) 0).lengthSq =
      1 ^ 2 := by
    simp only [Vec3.lengthSq]
    rw [hx2]
    ring
  refine ⟨hm, by norm_num [Vec3.lengthSq], ?_, ?_⟩
  · intro hcontra
    have hy := congrArg Vec3.y hcontra
    simp only [Vec3.multiplyScalar] at hy
    norm_num at hy
  · have heval := gcp_at_zero_nearpole
      (Vec3.mk (Real.sqrt (1 - (1 / 2 ^ 53 - 1) ^ 2)) (1 / 2 ^ 53 - 1) 0)
      (Vec3.mk 1 0 0) 1 (by norm_num) hm (by norm_num [jsEPSILON])
    rw [heval]
    intro hcontra
    have hy := congrArg Vec3.y hcontra
    norm_num at hy

/-- Claim C1 (amended): for every pair of vectors `start`, `end` on the
sphere of radius `R > 0` such that neither normalized endpoint falls in
the open `Number.EPSILON` sliver strictly between the south pole of the
internal reference axis `(0,1,0)` and `1 + y/R = Number.EPSILON`
(i.e. each endpoint satisfies `Number.EPSILON ≤ 1 + y/R` or is exactly the
south pole `(0,-R,0)`), great-circle evaluation at `t = 0` returns `start`
and at `t = 1` returns `end` exactly. -/
theorem c1_amended_endpoint_interpolation (start endv : Vec3) (R : ℝ)
    (hR : 0 < R) (hs : start.lengthSq = R ^ 2) (he : endv.lengthSq = R ^ 2)
    (hvs : jsEPSILON ≤ 1 + start.y / R ∨ start = ⟨0, -R, 0⟩)
    (hve : jsEPSILON ≤ 1 + endv.y / R ∨ endv = ⟨0, -R, 0⟩) :
    getGreatCirclePoint start endv 0 R = start ∧
      getGreatCirclePoint start endv 1 R = endv :=
  ⟨gcp_at_zero start endv R hR hs hvs, gcp_at_one start endv R hR he hve⟩

/-- Witness for the amended C1 at a concrete input on the radius-8 sphere. -/
theorem c1_amended_endpoint_interpolation_witness :
    (0 : ℝ) < 8 ∧ (Vec3.mk 0 0 8).lengthSq = 8 ^ 2 ∧
      (Vec3.mk 8 0 0).lengthSq = 8 ^ 2 ∧
      (getGreatCirclePoint ⟨0, 0, 8⟩ ⟨8, 0, 0⟩ 0 8 = ⟨0, 0, 8⟩ ∧
        getGreatCirclePoint ⟨0, 0, 8⟩ ⟨8, 0, 0⟩ 1 8 = ⟨8, 0, 0⟩) :=
  ⟨by norm_num, by norm_num [Vec3.lengthSq], by norm_num [Vec3.lengthSq],
   c1_amended_endpoint_interpolation ⟨0, 0, 8⟩ ⟨8, 0, 0⟩ 8 (by norm_num)
     (by norm_num [Vec3.lengthSq]) (by norm_num [Vec3.lengthSq])
     (Or.inl (by norm_num [jsEPSILON])) (Or.inl (by norm_num [jsEPSILON]))⟩

/-- For `2 ≤ N` and `i < N` the layout's `y` value lies in `[-1, 1]`, so
`1 - y·y` is non-negative. -/
theorem layout_y_bound (N : ℕ) (hN : 2 ≤ N) (i : ℕ) (hi : i < N) :
    0 ≤ 1 - (1 - (i : ℝ) / ((N : ℝ) - 1) * 2) * (1 - (i : ℝ) / ((N : ℝ) - 1) * 2) := by
  have hNR : (2 : ℝ) ≤ (N : ℝ) := by exact_mod_cast hN
  have hiN : (i : ℝ) ≤ (N : ℝ) - 1 := by
    have h1 : (i : ℝ) + 1 ≤ (N : ℝ) := by exact_mod_cast Nat.succ_le_of_lt hi
    linarith
  have h0 : 0 ≤ (i : ℝ) / ((N : ℝ) - 1) := div_nonneg (Nat.cast_nonneg i) (by linarith)
  have h1 : (i : ℝ) / ((N : ℝ) - 1) ≤ 1 := by
    rw [div_le_one (by linarith)]
    linarith
  nlinarith

/-- For `2 ≤ N`, entry `i < N` of the layout is finite and given exactly by
the golden-angle spiral formula. -/
theorem layout_point_eq (N : ℕ) (R : ℝ) (hN : 2 ≤ N) (i : ℕ) (hi : i < N) :
    (distributePointsOnSphere N R)[i]? =
      some (some (Real.cos (Real.pi * (3 - Real.sqrt 5) * (i : ℝ)) *
              Real.sqrt (1 - (1 - (i : ℝ) / ((N : ℝ) - 1) * 2) *
                (1 - (i : ℝ) / ((N : ℝ) - 1) * 2)) * R),
            some ((1 - (i : ℝ) / ((N : ℝ) - 1) * 2) * R),
            some (Real.sin (Real.pi * (3 - Real.sqrt 5) * (i : ℝ)) *
              Real.sqrt (1 - (1 - (i : ℝ) / ((N : ℝ) - 1) * 2) *
                (1 - (i : ℝ) / ((N : ℝ) - 1) * 2)) * R)) := by
  have hNR : (2 : ℝ) ≤ (N : ℝ) := by exact_mod_cast hN
  have hden : ¬(((N : ℝ) - 1) = 0) := by
    intro h
    linarith
  have hynn : ¬((1 : ℝ) - (1 - (i : ℝ) / ((N : ℝ) - 1) * 2) *
      (1 - (i : ℝ) / ((N : ℝ) - 1) * 2) < 0) :=
    not_lt.mpr (layout_y_bound N hN i hi)
  unfold distributePointsOnSphere
  rw [List.getElem?_map, List.getElem?_range hi, Option.map_some']
  simp only [jDiv, if_neg hden, jMul, jSub, jSqrt, if_neg hynn, jCos, jSin]

/-- Claim C2: for every `N ≥ 2` and radius `R > 0`, the spherical layout
returns exactly `N` pairwise-distinct positions, each finite and at
distance exactly `R` from the origin, computed deterministically by the
golden-angle spiral formula `y = 1 - 2i/(N-1)`,
`radius_at_y = sqrt(1 - y²)`, `theta = i·π(3 - √5)`. -/
theorem c2_spherical_layout (N : ℕ) (R : ℝ) (hN : 2 ≤ N) (hR : 0 < R) :
    (distributePointsOnSphere N R).length = N ∧
    (distributePointsOnSphere N R).Nodup ∧
    (∀ i, i < N → (distributePointsOnSphere N R)[i]? =
      some (some (Real.cos (Real.pi * (3 - Real.sqrt 5) * (i : ℝ)) *
              Real.sqrt (1 - (1 - (i : ℝ) / ((N : ℝ) - 1) * 2) *
                (1 - (i : ℝ) / ((N : ℝ) - 1) * 2)) * R),
            some ((1 - (i : ℝ) / ((N : ℝ) - 1) * 2) * R),
            some (Real.sin (Real.pi * (3 - Real.sqrt 5) * (i : ℝ)) *
              Real.sqrt (1 - (1 - (i : ℝ) / ((N : ℝ) - 1) * 2) *
                (1 - (i : ℝ) / ((N : ℝ) - 1) * 2)) * R))) ∧
    (∀ p ∈ distributePointsOnSphere N R, ∃ x y z : ℝ,
      p = (some x, some y, some z) ∧ Real.sqrt (x * x + y * y + z * z) = R) := by
  have hNR : (2 : ℝ) ≤ (N : ℝ) := by exact_mod_cast hN
  have hlen : (distributePointsOnSphere N R).length = N := by
    rw [distributePointsOnSphere, List.length_map, List.length_range]
  have hy_strict : ∀ i j : ℕ, i < j → j < N →
      ((1 : ℝ) - (j : ℝ) / ((N : ℝ) - 1) * 2) * R <
        ((1 : ℝ) - (i : ℝ) / ((N : ℝ) - 1) * 2) * R := by
    intro i j hij hj
    have hdenpos : (0 : ℝ) < (N : ℝ) - 1 := by linarith
    have hcast : (i : ℝ) < (j : ℝ) := by exact_mod_cast hij
    have hdivlt : (i : ℝ) / ((N : ℝ) - 1) < (j : ℝ) / ((N : ℝ) - 1) :=
      (div_lt_div_iff_of_pos_right hdenpos).mpr hcast
    have h2 : (1 : ℝ) - (j : ℝ) / ((N : ℝ) - 1) * 2 <
        1 - (i : ℝ) / ((N : ℝ) - 1) * 2 := by linarith
    exact mul_lt_mul_of_pos_right h2 hR
  have hnodup : (distributePointsOnSphere N R).Nodup := by
    rw [List.nodup_iff_getElem?_ne_getElem?]
    intro i j hij hjlen
    have hj : j < N := by rwa [hlen] at hjlen
    have hi : i < N := lt_trans hij hj
    rw [layout_point_eq N R hN i hi, layout_point_eq N R hN j hj]
    intro hcontra
    have hy := congrArg (fun o => Option.map (fun p => p.2.1) o) hcontra
    simp only [Option.map_some'] at hy
    have hy2 : ((1 : ℝ) - (i : ℝ) / ((N : ℝ) - 1) * 2) * R =
        ((1 : ℝ) - (j : ℝ) / ((N : ℝ) - 1) * 2) * R := by
      have := Option.some.inj hy
      exact Option.some.inj this
    have := hy_strict i j hij hj
    linarith
  refine ⟨hlen, hnodup, fun i hi => layout_point_eq N R hN i hi, ?_⟩
  intro p hp
  obtain ⟨i, hpi⟩ := List.mem_iff_getElem?.mp hp
  have hiN : i < N := by
    by_contra hge
    rw [List.getElem?_eq_none (by rw [hlen]; omega)] at hpi
    exact Option.noConfusion hpi
  rw [layout_point_eq N R hN i hiN] at hpi
  have hpeq := Option.some.inj hpi
  refine ⟨_, _, _, hpeq.symm, ?_⟩
  have hb := layout_y_bound N hN i hiN
  have hu2 := Real.mul_self_sqrt hb
  have hpyth := Real.sin_sq_add_cos_sq (Real.pi * (3 - Real.sqrt 5) * (i : ℝ))
  have hinner : Real.cos (Real.pi * (3 - Real.sqrt 5) * (i : ℝ)) *
        Real.sqrt (1 - (1 - (i : ℝ) / ((N : ℝ) - 1) * 2) *
          (1 - (i : ℝ) / ((N : ℝ) - 1) * 2)) * R *
        (Real.cos (Real.pi * (3 - Real.sqrt 5) * (i : ℝ)) *
          Real.sqrt (1 - (1 - (i : ℝ) / ((N : ℝ) - 1) * 2) *
            (1 - (i : ℝ) / ((N : ℝ) - 1) * 2)) * R) +
        (1 - (i : ℝ) / ((N : ℝ) - 1) * 2) * R *
          ((1 - (i : ℝ) / ((N : ℝ) - 1) * 2) * R) +
        Real.sin (Real.pi * (3 - Real.sqrt 5) * (i : ℝ)) *
          Real.sqrt (1 - (1 - (i : ℝ) / ((N : ℝ) - 1) * 2) *
            (1 - (i : ℝ) / ((N : ℝ) - 1) * 2)) * R *
          (Real.sin (Real.pi * (3 - Real.sqrt 5) * (i : ℝ)) *
            Real.sqrt (1 - (1 - (i : ℝ) / ((N : ℝ) - 1) * 2) *
              (1 - (i : ℝ) / ((N : ℝ) - 1) * 2)) * R) = R * R := by
    linear_combination (R * R * (Real.sqrt (1 - (1 - (i : ℝ) / ((N : ℝ) - 1) * 2) *
      (1 - (i : ℝ) / ((N : ℝ) - 1) * 2)) ^ 2)) * hpyth + (R * R) * hu2
  rw [hinner, Real.sqrt_mul_self hR.le]

/-- Witness for C2 at `N = 2`, `R = 1`. -/
theorem c2_spherical_layout_witness :
    2 ≤ 2 ∧ (0 : ℝ) < 1 ∧ (distributePointsOnSphere 2 1).length = 2 ∧
      (distributePointsOnSphere 2 1).Nodup :=
  ⟨le_refl 2, by norm_num, (c2_spherical_layout 2 1 (le_refl 2) (by norm_num)).1,
   (c2_spherical_layout 2 1 (le_refl 2) (by norm_num)).2.1⟩

/-- Claim C7 evaluation: at `N = 1` the JavaScript layout computes
`0/0 = NaN` (`y = 1 - (0 / (1 - 1)) * 2`), and NaN propagates to every
component of the single produced point — there is no well-defined pole
position. -/
theorem c7_layout_nan_at_count_one (R : ℝ) :
    distributePointsOnSphere 1 R = [(none, none, none)] := by
  simp [distributePointsOnSphere, List.range_succ, jDiv, jMul, jSub, jSqrt, jCos, jSin]

/-- Claim C3: in the per-frame particle update, every particle's progress
is advanced by `speed * delta`; whenever the result exceeds 1 it is reset
to exactly 0 (not to the floating-point remainder) and the freshly drawn
random offset replaces that particle's offset; particles that do not wrap
keep their existing offset. -/
theorem c3_particle_update (speed delta : ℝ) (particles : List (ℝ × Vec3))
    (fresh : List Vec3) (hlen : particles.length = fresh.length) :
    (updateParticles speed delta particles fresh).length = particles.length ∧
    ∀ i, i < particles.length → ∀ p off fr,
      particles[i]? = some (p, off) → fresh[i]? = some fr →
      (updateParticles speed delta particles fresh)[i]? =
        some (if 1 < p + speed * delta then ((0 : ℝ), fr)
              else (p + speed * delta, off)) := by
  constructor
  · rw [updateParticles, List.length_map, List.length_zip, hlen, min_self]
  · intro i hi p off fr hp hf
    have hz : (particles.zip fresh)[i]? = some ((p, off), fr) :=
      List.getElem?_zip_eq_some.mpr ⟨hp, hf⟩
    rw [updateParticles, List.getElem?_map, hz, Option.map_some']
    simp only [updateParticle]

/-- Witness for C3: one particle that wraps (progress resets to exactly 0
and takes the fresh offset). -/
theorem c3_particle_update_witness :
    ([((1 : ℝ) / 2, (⟨0, 0, 0⟩ : Vec3))].length = [(⟨1, 2, 3⟩ : Vec3)].length) ∧
      (updateParticles 1 1 [((1 : ℝ) / 2, ⟨0, 0, 0⟩)] [⟨1, 2, 3⟩])[0]? =
        some (if (1 : ℝ) < 1 / 2 + 1 * 1 then ((0 : ℝ), (⟨1, 2, 3⟩ : Vec3))
              else (1 / 2 + 1 * 1, ⟨0, 0, 0⟩)) :=
  ⟨rfl,
   (c3_particle_update 1 1 [((1 : ℝ) / 2, ⟨0, 0, 0⟩)] [⟨1, 2, 3⟩] rfl).2 0
     (by norm_num) (1 / 2) ⟨0, 0, 0⟩ ⟨1, 2, 3⟩ rfl rfl⟩

/-- The circular index after `k` ticks equals `k % T`(`T = totalPoints`). -/
theorem cycleIndex_eq_mod (T : ℕ) : ∀ k, cycleIndex T k = k % T := by
  intro k
  induction k with
  | zero => simp [cycleIndex]
  | succ n ih =>
    rw [cycleIndex, ih, Nat.mod_add_mod]

/-- Claim C4: for every non-empty topology, the auto-cycle advances a
circular index over the concatenated (nodes, then links) sequence, one
entity per tick; the index sequence is `k % (|nodes| + |links|)`, is
periodic with period `|nodes| + |links|`, hits every entity index exactly
once in each window of `|nodes| + |links|` consecutive ticks, and wraps
from the last link straight back to the first node; indices below
`|nodes|` display the corresponding node and the remaining indices display
the corresponding link, in stable list order. -/
theorem c4_tooltip_cycle (nodes : List TNode) (links : List TLink)
    (hT : 0 < totalPoints nodes links) :
    defaultIntervalMs = 3000 ∧
    (∀ k, cycleIndex (totalPoints nodes links) k = k % totalPoints nodes links) ∧
    (∀ k, cycleIndex (totalPoints nodes links) (k + totalPoints nodes links) =
      cycleIndex (totalPoints nodes links) k) ∧
    (∀ m j, j < totalPoints nodes links →
      ∃! d, d < totalPoints nodes links ∧
        cycleIndex (totalPoints nodes links) (m + 1 + d) = j) ∧
    (∀ k, cycleIndex (totalPoints nodes links) k = totalPoints nodes links - 1 →
      cycleIndex (totalPoints nodes links) (k + 1) = 0) ∧
    (∀ i, i < nodes.length → ∀ node, nodes[i]? = some node →
      tooltipAtIndex nodes links i = some (nodeTooltip node)) ∧
    (∀ i, nodes.length ≤ i → ∀ link, links[i - nodes.length]? = some link →
      tooltipAtIndex nodes links i = linkTooltip nodes link) := by
  refine ⟨rfl, cycleIndex_eq_mod _, ?_, ?_, ?_, ?_, ?_⟩
  · intro k
    rw [cycleIndex_eq_mod, cycleIndex_eq_mod, Nat.add_mod_right]
  · intro m j hj
    have hr : (m + 1) % totalPoints nodes links < totalPoints nodes links :=
      Nat.mod_lt _ hT
    set T := totalPoints nodes links with hTdef
    set r := (m + 1) % T with hrdef
    have key : ∀ D, (m + 1 + D) % T = (r + D) % T := by
      intro D
      rw [hrdef]
      exact (Nat.mod_add_mod (m + 1) T D).symm
    refine ⟨if r ≤ j then j - r else j + T - r, ⟨?_, ?_⟩, ?_⟩
    · split_ifs with hle <;> omega
    · rw [cycleIndex_eq_mod, key]
      split_ifs with hle
      · rw [Nat.add_sub_cancel' hle, Nat.mod_eq_of_lt hj]
      · have he : r + (j + T - r) = j + T := by omega
        rw [he, Nat.add_mod_right, Nat.mod_eq_of_lt hj]
    · intro d hd
      obtain ⟨hdlt, hdeq⟩ := hd
      rw [cycleIndex_eq_mod, key] at hdeq
      rcases Nat.lt_or_ge (r + d) T with hlt | hge
      · rw [Nat.mod_eq_of_lt hlt] at hdeq
        split_ifs with hle <;> omega
      · have h2 : r + d - T < T := by omega
        have he : (r + d) % T = r + d - T := by
          rw [Nat.mod_eq_sub_mod hge, Nat.mod_eq_of_lt h2]
        rw [he] at hdeq
        split_ifs with hle <;> omega
  · intro k hk
    simp only [cycleIndex]
    rw [hk, Nat.sub_add_cancel hT, Nat.mod_self]
  · intro i hi node hnode
    rw [tooltipAtIndex, if_pos hi, hnode]
  · intro i hi link hlink
    rw [tooltipAtIndex, if_neg (not_lt.mpr hi), hlink]

/-- Witness for C4 on a concrete one-node topology. -/
theorem c4_tooltip_cycle_witness :
    0 < totalPoints [⟨"a", ⟨0, 0, 8⟩⟩] [] ∧
      cycleIndex (totalPoints [⟨"a", ⟨0, 0, 8⟩⟩] []) 3 =
        3 % totalPoints [⟨"a", ⟨0, 0, 8⟩⟩] [] :=
  ⟨by simp [totalPoints],
   (c4_tooltip_cycle [⟨"a", ⟨0, 0, 8⟩⟩] [] (by simp [totalPoints])).2.1 3⟩

/-- Claim C10: the auto-cycle increments its index before displaying, on
every tick including the immediate first one, so with at least two
entities the first tooltip displayed is that of entity index 1 — the
second entry of the concatenated (nodes, then links) sequence — and entity
index 0 (the first node) is reached again only when a full period wraps
the index to 0. -/
theorem c10_first_tick_skips_first_entity (nodes : List TNode)
    (links : List TLink) (h2 : 2 ≤ totalPoints nodes links) :
    cycleIndex (totalPoints nodes links) 1 = 1 ∧
    moveTooltip nodes links (0, none) =
      (1, tooltipAtIndex nodes links 1) ∧
    (∀ k, 1 ≤ k → k < totalPoints nodes links →
      cycleIndex (totalPoints nodes links) k ≠ 0) ∧
    cycleIndex (totalPoints nodes links) (totalPoints nodes links) = 0 := by
  have h1 : (0 + 1) % totalPoints nodes links = 1 := Nat.mod_eq_of_lt (by omega)
  refine ⟨?_, ?_, ?_, ?_⟩
  · rw [cycleIndex_eq_mod]
    exact Nat.mod_eq_of_lt (by omega)
  · simp only [moveTooltip]
    rw [h1]
    cases htt : tooltipAtIndex nodes links 1 <;> simp [htt]
  · intro k hk1 hkT
    rw [cycleIndex_eq_mod, Nat.mod_eq_of_lt hkT]
    omega
  · rw [cycleIndex_eq_mod, Nat.mod_self]

/-- Witness for C10 on a concrete two-node topology. -/
theorem c10_first_tick_skips_first_entity_witness :
    2 ≤ totalPoints [⟨"a", ⟨0, 0, 8⟩⟩, ⟨"b", ⟨0, 8, 0⟩⟩] [] ∧
      cycleIndex (totalPoints [⟨"a", ⟨0, 0, 8⟩⟩, ⟨"b", ⟨0, 8, 0⟩⟩] []) 1 = 1 :=
  ⟨by simp [totalPoints],
   (c10_first_tick_skips_first_entity [⟨"a", ⟨0, 0, 8⟩⟩, ⟨"b", ⟨0, 8, 0⟩⟩] []
     (by simp [totalPoints])).1⟩

/-- Claim C6: a link whose source or target id does not resolve in the
node set is skipped silently: it never shows up in the rendered link list,
the tooltip tick for it leaves the previous tooltip state untouched while
the circular index still advances, and every tick advances the index by
exactly one step modulo the entity count, so subsequent ticks continue
normally and nothing crashes or surfaces an error. -/
theorem c6_malformed_link_skipped (nodes : List TNode) (links : List TLink) :
    (∀ l a b, (l, a, b) ∈ renderLinks nodes links →
      ∃ sn tn, findNodeById nodes l.source = some sn ∧
        findNodeById nodes l.target = some tn) ∧
    (∀ i st, (moveTooltip nodes links (i, st)).1 =
      (i + 1) % totalPoints nodes links) ∧
    (∀ i st l, nodes.length ≤ (i + 1) % totalPoints nodes links →
      links[(i + 1) % totalPoints nodes links - nodes.length]? = some l →
      findNodeById nodes l.source = none ∨ findNodeById nodes l.target = none →
      moveTooltip nodes links (i, st) =
        ((i + 1) % totalPoints nodes links, st)) := by
  refine ⟨?_, ?_, ?_⟩
  · intro l a b hmem
    rw [renderLinks] at hmem
    obtain ⟨l', hl', heq⟩ := List.mem_filterMap.mp hmem
    cases hs : findNodeById nodes l'.source with
    | none => simp [positionsOf, hs] at heq
    | some sn =>
      cases ht : findNodeById nodes l'.target with
      | none => simp [positionsOf, hs, ht] at heq
      | some tn =>
        simp only [positionsOf, hs, ht, Option.map_some', Option.some.injEq,
          Prod.mk.injEq] at heq
        obtain ⟨hl2, -, -⟩ := heq
        subst hl2
        exact ⟨sn, tn, hs, ht⟩
  · intro i st
    simp only [moveTooltip]
    cases htt : tooltipAtIndex nodes links ((i + 1) % totalPoints nodes links) <;>
      simp [htt]
  · intro i st l hge hlink hmiss
    have htt : tooltipAtIndex nodes links
        ((i + 1) % totalPoints nodes links) = none := by
      rw [tooltipAtIndex, if_neg (not_lt.mpr hge), hlink]
      rcases hmiss with h | h
      · cases h2 : findNodeById nodes l.target <;> simp [linkTooltip, h, h2]
      · cases h2 : findNodeById nodes l.source <;> simp [linkTooltip, h, h2]
    simp only [moveTooltip]
    rw [htt]

/-- Witness for C6: a one-node topology with one link whose target id is
unknown; the tick keeps the previous (empty) tooltip and advances the
index. -/
theorem c6_malformed_link_skipped_witness :
    (List.length [(⟨"a", (⟨0, 0, 8⟩ : Vec3)⟩ : TNode)] ≤
      (0 + 1) % totalPoints [⟨"a", ⟨0, 0, 8⟩⟩] [⟨"a", "ghost"⟩]) ∧
    ([(⟨"a", "ghost"⟩ : TLink)][(0 + 1) %
        totalPoints [⟨"a", ⟨0, 0, 8⟩⟩] [⟨"a", "ghost"⟩] -
        List.length [(⟨"a", (⟨0, 0, 8⟩ : Vec3)⟩ : TNode)]]? =
      some ⟨"a", "ghost"⟩) ∧
    findNodeById [⟨"a", ⟨0, 0, 8⟩⟩] "ghost" = none ∧
    moveTooltip [⟨"a", ⟨0, 0, 8⟩⟩] [⟨"a", "ghost"⟩] (0, none) =
      ((0 + 1) % totalPoints [⟨"a", ⟨0, 0, 8⟩⟩] [⟨"a", "ghost"⟩], none) := by
  have hge : List.length [(⟨"a", (⟨0, 0, 8⟩ : Vec3)⟩ : TNode)] ≤
      (0 + 1) % totalPoints [⟨"a", ⟨0, 0, 8⟩⟩] [⟨"a", "ghost"⟩] := by
    simp [totalPoints]
  have hlink : ([(⟨"a", "ghost"⟩ : TLink)][(0 + 1) %
      totalPoints [⟨"a", ⟨0, 0, 8⟩⟩] [⟨"a", "ghost"⟩] -
      List.length [(⟨"a", (⟨0, 0, 8⟩ : Vec3)⟩ : TNode)]]? =
      some ⟨"a", "ghost"⟩) := by
    simp [totalPoints]
  have hmiss : findNodeById [(⟨"a", (⟨0, 0, 8⟩ : Vec3)⟩ : TNode)] "ghost" = none := by
    simp [findNodeById]
  exact ⟨hge, hlink, hmiss,
    (c6_malformed_link_skipped [⟨"a", ⟨0, 0, 8⟩⟩] [⟨"a", "ghost"⟩]).2.2 0 none
      ⟨"a", "ghost"⟩ hge hlink (Or.inr hmiss)⟩

/-- The TWEEN cubic in-out easing starts at 0. -/
theorem cubicInOut_zero : cubicInOut 0 = 0 := by
  rw [cubicInOut, if_pos (by norm_num)]
  norm_num

/-- The TWEEN cubic in-out easing ends at 1. -/
theorem cubicInOut_one : cubicInOut 1 = 1 := by
  rw [cubicInOut, if_neg (by norm_num)]
  norm_num

/-- The TWEEN cubic in-out easing is continuous: the two cubic pieces
agree at the branch point `k = 1/2`. -/
theorem continuous_cubicInOut : Continuous cubicInOut := by
  have hf : Continuous fun k : ℝ => (0.5 : ℝ) * ((2 * k) * (2 * k) * (2 * k)) := by
    continuity
  have hg : Continuous fun k : ℝ =>
      (0.5 : ℝ) * ((2 * k - 2) * (2 * k - 2) * (2 * k - 2) + 2) := by
    continuity
  have h2k : Continuous fun k : ℝ => 2 * k := by
    continuity
  have hfr : ∀ a ∈ frontier {k : ℝ | 2 * k < 1},
      (0.5 : ℝ) * ((2 * a) * (2 * a) * (2 * a)) =
        (0.5 : ℝ) * ((2 * a - 2) * (2 * a - 2) * (2 * a - 2) + 2) := by
    intro a ha
    have hmem := frontier_lt_subset_eq h2k continuous_const ha
    have heq : 2 * a = 1 := hmem
    linear_combination (3 * (2 * a - 1)) * heq
  exact Continuous.if hfr hf hg

/-- Claim C9: on selection, the camera controller computes its destination
from the midpoint of the entity position and the tooltip anchor,
normalized to a direction from the sphere center, placed back along that
direction at fixed distance 25 with a +10 height bias in `y`; the camera
position is animated from its current value to that destination over the
fixed 1500 ms duration with cubic in-out easing — starting exactly at the
current position, ending exactly at the destination, moving continuously
in every coordinate (no instantaneous jump) — while the orbit target is
pinned at the sphere center `(0,0,0)`. -/
theorem c9_camera_controller (current targetPosition tooltipPosition : Vec3) :
    (cameraController current targetPosition tooltipPosition).orbitTarget =
      ⟨0, 0, 0⟩ ∧
    (cameraController current targetPosition tooltipPosition).positionAt 0 =
      current ∧
    (∀ s, 1500 ≤ s →
      (cameraController current targetPosition tooltipPosition).positionAt s =
        cameraDestination targetPosition tooltipPosition) ∧
    cameraDestination targetPosition tooltipPosition =
      cameraDestinationSpec targetPosition tooltipPosition ∧
    Continuous (fun s =>
      ((cameraController current targetPosition tooltipPosition).positionAt s).x) ∧
    Continuous (fun s =>
      ((cameraController current targetPosition tooltipPosition).positionAt s).y) ∧
    Continuous (fun s =>
      ((cameraController current targetPosition tooltipPosition).positionAt s).z) ∧
    (((targetPosition.add tooltipPosition).multiplyScalar 0.5).lengthSq ≠ 0 →
      (Vec3.sub (cameraDestination targetPosition tooltipPosition)
        ⟨0, 10, 0⟩).length = 25) := by
  have hease : Continuous fun s : ℝ => cubicInOut (min (s / 1500) 1) :=
    continuous_cubicInOut.comp ((continuous_id.div_const 1500).min continuous_const)
  refine ⟨rfl, ?_, ?_, ?_, ?_, ?_, ?_, ?_⟩
  · simp only [cameraController, tweenPosition]
    norm_num [cubicInOut_zero]
    ext <;> simp [Vec3.add, Vec3.sub, Vec3.multiplyScalar]
  · intro s hs
    have hmin : min (s / 1500) 1 = 1 := by
      rw [min_eq_right]
      rw [le_div_iff₀ (by norm_num : (0 : ℝ) < 1500)]
      linarith
    simp only [cameraController, tweenPosition, hmin, cubicInOut_one]
    ext <;> simp [Vec3.add, Vec3.sub, Vec3.multiplyScalar]
  · have h05 : (0.5 : ℝ) = 1 / 2 := by norm_num
    simp only [cameraDestination, cameraDestinationSpec, h05]
    ext <;> simp [Vec3.add, Vec3.multiplyScalar]
  · simp only [cameraController, tweenPosition, Vec3.add, Vec3.sub,
      Vec3.multiplyScalar]
    exact continuous_const.add (continuous_const.mul hease)
  · simp only [cameraController, tweenPosition, Vec3.add, Vec3.sub,
      Vec3.multiplyScalar]
    exact continuous_const.add (continuous_const.mul hease)
  · simp only [cameraController, tweenPosition, Vec3.add, Vec3.sub,
      Vec3.multiplyScalar]
    exact continuous_const.add (continuous_const.mul hease)
  · intro hne
    have hu := Vec3.lengthSq_normalize _ hne
    have hrw : Vec3.sub (cameraDestination targetPosition tooltipPosition)
        ⟨0, 10, 0⟩ = (((targetPosition.add tooltipPosition).multiplyScalar
          0.5).normalize).multiplyScalar (-25) := by
      simp only [cameraDestination]
      ext <;> simp [Vec3.sub, Vec3.multiplyScalar]
    rw [hrw, Vec3.length, Vec3.lengthSq_multiplyScalar, hu, mul_one,
      show ((-25 : ℝ)) * (-25) = 25 ^ 2 by norm_num,
      Real.sqrt_sq (by norm_num : (0 : ℝ) ≤ 25)]

/-- Witness for C9 at concrete selection data. -/
theorem c9_camera_controller_witness :
    (((Vec3.mk 8 0 0).add (Vec3.mk 16 0 0)).multiplyScalar 0.5).lengthSq ≠ 0 ∧
      (Vec3.sub (cameraDestination ⟨8, 0, 0⟩ ⟨16, 0, 0⟩) ⟨0, 10, 0⟩).length = 25 := by
  have hne : (((Vec3.mk 8 0 0).add (Vec3.mk 16 0 0)).multiplyScalar 0.5).lengthSq ≠ 0 := by
    simp [Vec3.add, Vec3.multiplyScalar, Vec3.lengthSq]
    norm_num
  exact ⟨hne,
    (c9_camera_controller ⟨0, 0, 0⟩ ⟨8, 0, 0⟩ ⟨16, 0, 0⟩).2.2.2.2.2.2.2 hne⟩

end NetViz
